import Mathlib

/-!
Verification development for the s2dm schema tooling.

The definitions below are shallow embeddings of the Python sources:
  * `src/s2dm/exporters/utils/field.py` (field shape classification),
  * `src/s2dm/exporters/utils/directive.py` (directive re-serialization),
  * `src/s2dm/exporters/rdf_materializer.py` (RDF schema extraction and
    deterministic n-triples serialization),
  * `src/s2dm/cli.py` (version-tag suffixing and the `registry id` command).

Python strings manipulated character-by-character (path names, serialized
n-triples text) are modelled as `List Char`; strings only concatenated or
compared are modelled as `String`.
-/

/-! ## GraphQL AST value nodes and directives (graphql-core collaborator model)

`directive.py` stores parsed directive nodes whose arguments are GraphQL
value nodes.  The value-node grammar of graphql-core is modelled here:
int/float values keep their source text, strings their content, and list
and object values their structure. -/

inductive ValueNode where
  | intValue (v : String)
  | floatValue (v : String)
  | stringValue (v : String)
  | booleanValue (b : Bool)
  | nullValue
  | enumValue (v : String)
  | listValue (values : List ValueNode)
  | objectValue (fields : List (String × ValueNode))

/-- A parsed directive usage node: `@name(arg1: v1, ..., argN: vN)`. -/
structure DirectiveNode where
  name : String
  arguments : List (String × ValueNode)

/-- Model of graphql-core's string escaping used by `print_ast` on string
values (escape backslash, quote and common control characters). -/
def escapeGraphQLChar (c : Char) : String :=
  if c = '\\' then "\\\\"
  else if c = '\"' then "\\\""
  else if c = '\n' then "\\n"
  else if c = '\r' then "\\r"
  else if c = '\t' then "\\t"
  else String.singleton c

/-- Escape every character of a string for GraphQL string-literal printing. -/
def escapeGraphQLString (s : String) : String :=
  String.join (s.data.map escapeGraphQLChar)

/-- Model of graphql-core's `print_ast` restricted to value nodes: the
canonical GraphQL literal syntax of a parsed value.  Lists print as
`[v1, v2]` and objects as brace-delimited `field: value` sequences, exactly
the literal source syntax (never a Python debug representation). -/
def print_ast : ValueNode → String
  | .intValue v => v
  | .floatValue v => v
  | .stringValue v => "\"" ++ escapeGraphQLString v ++ "\""
  | .booleanValue b => if b then "true" else "false"
  | .nullValue => "null"
  | .enumValue v => v
  | .listValue vs =>
      "[" ++ String.intercalate ", " (vs.attach.map (fun v => print_ast v.1)) ++ "]"
  | .objectValue fs =>
      "\x7b" ++ String.intercalate ", "
        (fs.attach.map (fun f => f.1.1 ++ ": " ++ print_ast f.1.2)) ++ "\x7d"
decreasing_by
  · have := List.sizeOf_lt_of_mem v.2
    simp only [ValueNode.listValue.sizeOf_spec]
    omega
  · have h := List.sizeOf_lt_of_mem f.2
    rcases f with ⟨⟨a, b⟩, hf⟩
    simp only [Prod.mk.sizeOf_spec] at h
    simp only [ValueNode.objectValue.sizeOf_spec]
    omega

/-! ## Field shape classification (`field.py`) -/

/-- GraphQL type reference: a named type, possibly wrapped by list and
non-null modifiers. -/
inductive GraphQLTypeRef where
  | named (name : String)
  | list (ofType : GraphQLTypeRef)
  | nonNull (ofType : GraphQLTypeRef)
deriving DecidableEq

/-- `graphql.is_non_null_type`. -/
def is_non_null_type : GraphQLTypeRef → Bool
  | .nonNull _ => true
  | _ => false

/-- `graphql.is_list_type`. -/
def is_list_type : GraphQLTypeRef → Bool
  | .list _ => true
  | _ => false

/-- The `of_type` attribute of a GraphQL wrapper type (identity on named
types, where graphql-core has no such attribute). -/
def of_type : GraphQLTypeRef → GraphQLTypeRef
  | .list t => t
  | .nonNull t => t
  | t => t

/-- A GraphQL field: its (possibly wrapped) output type and the directive
nodes attached to its AST node. -/
structure GraphQLField where
  type : GraphQLTypeRef
  directives : List DirectiveNode

/-- `has_given_directive` from `directive.py`: whether the field's AST node
carries a directive with the given name. -/
def has_given_directive (field : GraphQLField) (directive_name : String) : Bool :=
  field.directives.any (fun d => d.name = directive_name)

/-- Optional-bound cardinality range (`Cardinality` dataclass in `field.py`). -/
structure Cardinality where
  min : Option Nat
  max : Option Nat
deriving DecidableEq

/-- `FieldCaseMetadata` dataclass in `field.py`. -/
structure FieldCaseMetadata where
  description : String
  value_cardinality : Cardinality
  list_cardinality : Cardinality
deriving DecidableEq

/-- The `FieldCase` enum from `field.py`. -/
inductive FieldCase where
  | DEFAULT
  | NON_NULL
  | LIST
  | NON_NULL_LIST
  | LIST_NON_NULL
  | NON_NULL_LIST_NON_NULL
  | SET
  | SET_NON_NULL
deriving DecidableEq, Fintype

/-- The metadata value attached to each `FieldCase` enum member in
`field.py`. -/
def FieldCase.metadata : FieldCase → FieldCaseMetadata
  | .DEFAULT =>
      ⟨"A singular element that can also be null. EXAMPLE -> field: NamedType",
       ⟨some 0, some 1⟩, ⟨none, none⟩⟩
  | .NON_NULL =>
      ⟨"A singular element that cannot be null. EXAMPLE -> field: NamedType!",
       ⟨some 1, some 1⟩, ⟨none, none⟩⟩
  | .LIST =>
      ⟨"An array of elements. The array itself can be null. EXAMPLE -> field: [NamedType]",
       ⟨some 0, none⟩, ⟨some 0, some 1⟩⟩
  | .NON_NULL_LIST =>
      ⟨"An array of elements. The array itself cannot be null. EXAMPLE -> field: [NamedType]!",
       ⟨some 0, none⟩, ⟨some 1, some 1⟩⟩
  | .LIST_NON_NULL =>
      ⟨"An array of elements. The array itself can be null but the elements cannot. EXAMPLE -> field: [NamedType!]",
       ⟨some 1, none⟩, ⟨some 0, some 1⟩⟩
  | .NON_NULL_LIST_NON_NULL =>
      ⟨"List and elements in the list cannot be null. EXAMPLE -> field: [NamedType!]!",
       ⟨some 1, none⟩, ⟨some 1, some 1⟩⟩
  | .SET =>
      ⟨"A set of elements. EXAMPLE -> field: [NamedType] @noDuplicates",
       ⟨some 0, none⟩, ⟨some 0, some 1⟩⟩
  | .SET_NON_NULL =>
      ⟨"A set of elements. The elements cannot be null. EXAMPLE -> field: [NamedType!] @noDuplicates",
       ⟨some 1, none⟩, ⟨some 0, some 1⟩⟩

/-- The `FIELD_CASE_TO_TYPE_WRAPPER_PATTERN` mapping from `field.py`
(total function: the Python dict has one entry per enum member). -/
def FIELD_CASE_TO_TYPE_WRAPPER_PATTERN : FieldCase → String
  | .DEFAULT => "bare"
  | .NON_NULL => "nonNull"
  | .LIST => "list"
  | .LIST_NON_NULL => "listOfNonNull"
  | .NON_NULL_LIST => "nonNullList"
  | .NON_NULL_LIST_NON_NULL => "nonNullListOfNonNull"
  | .SET => "list"
  | .SET_NON_NULL => "listOfNonNull"

/-- `field_case_to_type_wrapper_pattern` from `field.py`. -/
def field_case_to_type_wrapper_pattern (field_case : FieldCase) : String :=
  FIELD_CASE_TO_TYPE_WRAPPER_PATTERN field_case

/-- `get_field_case` from `field.py`: strip an outer non-null, then test for
a list, then test the list element's non-null. -/
def get_field_case (field : GraphQLField) : FieldCase :=
  let t := field.type
  if is_non_null_type t then
    let t := of_type t
    if is_list_type t then
      if is_non_null_type (of_type t) then .NON_NULL_LIST_NON_NULL
      else .NON_NULL_LIST
    else .NON_NULL
  else if is_list_type t then
    if is_non_null_type (of_type t) then .LIST_NON_NULL
    else .LIST
  else .DEFAULT

/-- `get_field_case_extended` from `field.py`; the Python `raise ValueError`
is modelled as `Except.error`. -/
def get_field_case_extended (field : GraphQLField) : Except String FieldCase :=
  let base_case := get_field_case field
  if has_given_directive field "noDuplicates" then
    if base_case = .LIST then .ok .SET
    else if base_case = .LIST_NON_NULL then .ok .SET_NON_NULL
    else .error
      "Wrong output type and/or modifiers specified for the field. Please, correct the GraphQL schema."
  else .ok base_case

/-- The six null/list nesting patterns of a legal GraphQL field type,
read off the spec's decision order: outer non-null wrapper present or not,
list present or not, inner non-null present or not. -/
inductive NestingPattern where
  | bare
  | outerNonNull
  | plainList
  | listOfNonNull
  | nonNullList
  | nonNullListOfNonNull
deriving DecidableEq, Fintype

/-- The nesting pattern of a type expression (spec-side description of the
shape, independent of the classifier). -/
def nestingPatternOf : GraphQLTypeRef → NestingPattern
  | .nonNull (.list (.nonNull _)) => .nonNullListOfNonNull
  | .nonNull (.list _) => .nonNullList
  | .nonNull _ => .outerNonNull
  | .list (.nonNull _) => .listOfNonNull
  | .list _ => .plainList
  | .named _ => .bare

/-- The base shape the spec assigns to each of the six nesting patterns. -/
def baseShapeOfPattern : NestingPattern → FieldCase
  | .bare => .DEFAULT
  | .outerNonNull => .NON_NULL
  | .plainList => .LIST
  | .listOfNonNull => .LIST_NON_NULL
  | .nonNullList => .NON_NULL_LIST
  | .nonNullListOfNonNull => .NON_NULL_LIST_NON_NULL

/-- All six nesting patterns, enumerated. -/
def allNestingPatterns : List NestingPattern :=
  [.bare, .outerNonNull, .plainList, .listOfNonNull, .nonNullList,
   .nonNullListOfNonNull]

/-- The six FieldCase values produced without custom directives, in
`field.py` declaration order. -/
def baseFieldCases : List FieldCase :=
  [.DEFAULT, .NON_NULL, .LIST, .LIST_NON_NULL, .NON_NULL_LIST,
   .NON_NULL_LIST_NON_NULL]

/-- All eight members of the FieldCase enum, in declaration order. -/
def allFieldCases : List FieldCase :=
  [.DEFAULT, .NON_NULL, .LIST, .NON_NULL_LIST, .LIST_NON_NULL,
   .NON_NULL_LIST_NON_NULL, .SET, .SET_NON_NULL]

/-- C2: the base shape classifier is total (a Lean function), decides the
shape exactly by the nesting pattern obtained by stripping the outer
non-null, testing for a list, then testing the inner non-null; and the six
base shapes are in bijection with the six nesting patterns (the pattern
enumeration is exhaustive and no two patterns share a base shape). -/
theorem get_field_case_decides_by_nesting_pattern :
    (∀ field : GraphQLField,
        get_field_case field = baseShapeOfPattern (nestingPatternOf field.type)) ∧
    (∀ p : NestingPattern, p ∈ allNestingPatterns) ∧
    (allNestingPatterns.map baseShapeOfPattern).Nodup := by
  refine ⟨?_, by decide, by decide⟩
  intro field
  rcases field with ⟨t, ds⟩
  cases t with
  | named n => rfl
  | list inner => cases inner <;> rfl
  | nonNull inner =>
    cases inner with
    | named n => rfl
    | list inner2 => cases inner2 <;> rfl
    | nonNull inner2 => rfl

/-- C3: with the no-duplicates annotation, the extended classifier turns a
list shape into set and a list-of-non-null shape into set-of-non-null, and
errors on every other base shape; without the annotation it returns the base
shape unchanged. -/
theorem get_field_case_extended_spec (field : GraphQLField) :
    (has_given_directive field "noDuplicates" = true →
        (get_field_case field = .LIST →
            get_field_case_extended field = .ok .SET) ∧
        (get_field_case field = .LIST_NON_NULL →
            get_field_case_extended field = .ok .SET_NON_NULL) ∧
        (get_field_case field ≠ .LIST → get_field_case field ≠ .LIST_NON_NULL →
            ∃ msg, get_field_case_extended field = .error msg)) ∧
    (has_given_directive field "noDuplicates" = false →
        get_field_case_extended field = .ok (get_field_case field)) := by
  constructor
  · intro hdir
    refine ⟨?_, ?_, ?_⟩
    · intro hbase
      simp [get_field_case_extended, hdir, hbase]
    · intro hbase
      simp [get_field_case_extended, hdir, hbase]
    · intro h1 h2
      refine ⟨"Wrong output type and/or modifiers specified for the field. Please, correct the GraphQL schema.", ?_⟩
      simp [get_field_case_extended, hdir, h1, h2]
  · intro hdir
    simp [get_field_case_extended, hdir]

/-- C3 witness: a concrete list-shaped field carrying `@noDuplicates` is
classified as a set by the extended classifier. -/
theorem get_field_case_extended_spec_witness :
    get_field_case_extended
        ⟨.list (.named "NamedType"), [⟨"noDuplicates", []⟩]⟩ = .ok .SET :=
  ((get_field_case_extended_spec
      ⟨.list (.named "NamedType"), [⟨"noDuplicates", []⟩]⟩).1
    (by decide)).1 (by decide)

/-- C5: the wrapper-pattern mapping is total on all eight shapes, its value
table collapses the two set shapes onto list/listOfNonNull, and the six
non-set shapes receive six pairwise distinct tags (so the image is exactly
the six tags). -/
theorem field_case_to_type_wrapper_pattern_table :
    allFieldCases.map field_case_to_type_wrapper_pattern =
      ["bare", "nonNull", "list", "nonNullList", "listOfNonNull",
       "nonNullListOfNonNull", "list", "listOfNonNull"] ∧
    field_case_to_type_wrapper_pattern .SET = "list" ∧
    field_case_to_type_wrapper_pattern .SET_NON_NULL = "listOfNonNull" ∧
    (baseFieldCases.map field_case_to_type_wrapper_pattern).Nodup ∧
    (∀ c : FieldCase, c ∈ allFieldCases) := by
  refine ⟨by decide, by decide, by decide, by decide, by decide⟩

/-- C6 counterexample: the DEFAULT shape's list-cardinality is neither 0/1
nor 1/1 — both bounds are absent (`None` in the source), refuting the claim
that every one of the eight tags carries a 0/1 or 1/1 list-cardinality. -/
theorem fieldCase_DEFAULT_list_cardinality_absent :
    ¬ ((FieldCase.metadata .DEFAULT).list_cardinality = ⟨some 0, some 1⟩ ∨
       (FieldCase.metadata .DEFAULT).list_cardinality = ⟨some 1, some 1⟩) := by
  decide

/-- C6 amended: every one of the eight FieldCase tags carries a
value-cardinality range with a present minimum, and a list-cardinality range
that is 0/1 or 1/1 for the six list/set shapes, while the two singular
shapes (DEFAULT and NON_NULL) carry an absent (None/None) list-cardinality. -/
theorem fieldCase_metadata_cardinalities :
    ∀ c : FieldCase,
      (FieldCase.metadata c).value_cardinality.min.isSome = true ∧
      (((c = .DEFAULT ∨ c = .NON_NULL) ∧
        (FieldCase.metadata c).list_cardinality = ⟨none, none⟩) ∨
       (¬(c = .DEFAULT ∨ c = .NON_NULL) ∧
        ((FieldCase.metadata c).list_cardinality = ⟨some 0, some 1⟩ ∨
         (FieldCase.metadata c).list_cardinality = ⟨some 1, some 1⟩))) := by
  decide

/-! ## Directive re-serialization (`directive.py`) -/

/-- The kind of a named GraphQL type (the graphql-core class it is an
instance of). -/
inductive TypeKind where
  | object
  | interface
  | inputObject
  | enum
  | union
  | scalar
  | other
deriving DecidableEq

/-- A named type from the schema's `type_map`: its name, description, kind,
AST directive nodes, fields (name with field entry, in dict order), enum
values (name with the value's directive nodes), and union member type
names. -/
structure TypeDef where
  name : String
  description : String
  kind : TypeKind
  directives : List DirectiveNode
  fields : List (String × GraphQLField)
  values : List (String × List DirectiveNode)
  possibleTypes : List String

/-- `"__".isPrefixOf name` in character-list form (Python
`name.startswith("__")`). -/
def strStartsWith (p s : String) : Bool :=
  p.data.isPrefixOf s.data

/-- `format_directive_from_ast` from `directive.py`: empty string for the
built-in `deprecated`/`specifiedBy` directives, otherwise `@name` followed
by a parenthesized `name: value` argument list whose values are serialized
with graphql-core's `print_ast`. -/
def format_directive_from_ast (directive_node : DirectiveNode) : String :=
  let directive_name := directive_node.name
  if directive_name = "deprecated" ∨ directive_name = "specifiedBy" then ""
  else
    let args_str :=
      if directive_node.arguments.isEmpty then ""
      else
        "(" ++ String.intercalate ", "
          (directive_node.arguments.map (fun arg => arg.1 ++ ": " ++ print_ast arg.2)) ++ ")"
    "@" ++ directive_name ++ args_str

/-- The inner `get_directive_strings` helper of `build_directive_map`:
format every directive node and keep the non-empty results. -/
def get_directive_strings (directives : List DirectiveNode) : List String :=
  (directives.map format_directive_from_ast).filter (fun s => s ≠ "")

/-- Membership test of `DIRECTIVE_RELATED_TYPES` in `build_directive_map`
(object, interface, input object, enum, union, scalar). -/
def isDirectiveRelatedType : TypeKind → Bool
  | .other => false
  | _ => true

/-- Python `hasattr(type_obj, "fields")`: true exactly for object,
interface and input object types. -/
def typeKindHasFields : TypeKind → Bool
  | .object => true
  | .interface => true
  | .inputObject => true
  | _ => false

/-- A key of the directive map: a type name, or a (type name, member name)
pair for a field or an enum value. -/
inductive DirectiveMapKey where
  | typeName (n : String)
  | member (typeName memberName : String)
deriving DecidableEq

/-- The directive-map entries contributed by one entry of the schema's
`type_map` (one iteration of the loop in `build_directive_map`). -/
def typeDirectiveEntries (t : TypeDef) : List (DirectiveMapKey × List String) :=
  if strStartsWith "__" t.name || !isDirectiveRelatedType t.kind then []
  else
    (if t.directives.isEmpty then []
     else if (get_directive_strings t.directives).isEmpty then []
     else [(DirectiveMapKey.typeName t.name, get_directive_strings t.directives)]) ++
    (if typeKindHasFields t.kind then
       t.fields.filterMap (fun fp =>
         if fp.2.directives.isEmpty then none
         else if (get_directive_strings fp.2.directives).isEmpty then none
         else some (DirectiveMapKey.member t.name fp.1, get_directive_strings fp.2.directives))
     else []) ++
    (if t.kind = .enum then
       t.values.filterMap (fun vp =>
         if vp.2.isEmpty then none
         else if (get_directive_strings vp.2).isEmpty then none
         else some (DirectiveMapKey.member t.name vp.1, get_directive_strings vp.2))
     else [])

/-- `build_directive_map` from `directive.py`: collect the entries of every
type in `type_map` order (the Python dict receives each key at most once,
so the assembled association list is the dict's content). -/
def build_directive_map (schema : List TypeDef) : List (DirectiveMapKey × List String) :=
  (schema.map typeDirectiveEntries).flatten

/-- A formatted directive string beginning with `@` is never empty. -/
theorem at_append_ne_empty (s : String) : "@" ++ s ≠ "" := by
  intro h
  have := congrArg String.length h
  simp [String.length_append] at this
  exact absurd this.1 (by decide)

/-- A non-built-in directive always formats to a non-empty string. -/
theorem format_directive_from_ast_ne_empty (d : DirectiveNode)
    (h1 : d.name ≠ "deprecated") (h2 : d.name ≠ "specifiedBy") :
    format_directive_from_ast d ≠ "" := by
  simp only [format_directive_from_ast, h1, h2, or_self, if_false]
  exact at_append_ne_empty _

/-- A non-built-in directive's formatted string is kept by
`get_directive_strings`. -/
theorem mem_get_directive_strings {d : DirectiveNode} {directives : List DirectiveNode}
    (hd : d ∈ directives) (h1 : d.name ≠ "deprecated") (h2 : d.name ≠ "specifiedBy") :
    format_directive_from_ast d ∈ get_directive_strings directives := by
  refine List.mem_filter.2 ⟨List.mem_map_of_mem _ hd, ?_⟩
  simpa using format_directive_from_ast_ne_empty d h1 h2

/-- Entries contributed by a type of the schema are entries of the full
directive map. -/
theorem mem_build_directive_map {schema : List TypeDef} {t : TypeDef}
    (ht : t ∈ schema) {e : DirectiveMapKey × List String}
    (he : e ∈ typeDirectiveEntries t) : e ∈ build_directive_map schema := by
  simp only [build_directive_map, List.mem_flatten]
  exact ⟨typeDirectiveEntries t, List.mem_map_of_mem _ ht, he⟩

/-- The empty string is never among the strings kept by
`get_directive_strings`. -/
theorem empty_not_mem_get_directive_strings (directives : List DirectiveNode) :
    "" ∉ get_directive_strings directives := by
  intro h
  have := (List.mem_filter.1 h).2
  simp at this

/-- Every value list stored in the directive map is the
`get_directive_strings` result for some directive-node list. -/
theorem strs_of_mem_typeDirectiveEntries {t : TypeDef} {key : DirectiveMapKey}
    {strs : List String} (h : (key, strs) ∈ typeDirectiveEntries t) :
    ∃ ds, strs = get_directive_strings ds := by
  unfold typeDirectiveEntries at h
  split at h
  · exact absurd h (List.not_mem_nil _)
  · rcases List.mem_append.1 h with h12 | h3
    · rcases List.mem_append.1 h12 with h1 | h2
      · split at h1
        · exact absurd h1 (List.not_mem_nil _)
        · split at h1
          · exact absurd h1 (List.not_mem_nil _)
          · rcases List.mem_singleton.1 h1 with heq
            exact ⟨t.directives, congrArg Prod.snd heq⟩
      · split at h2
        · rcases List.mem_filterMap.1 h2 with ⟨fp, _, heq⟩
          split at heq
          · exact absurd heq (by simp)
          · split at heq
            · exact absurd heq (by simp)
            · rw [Option.some.injEq] at heq
              exact ⟨fp.2.directives, (congrArg Prod.snd heq).symm⟩
        · exact absurd h2 (List.not_mem_nil _)
    · split at h3
      · rcases List.mem_filterMap.1 h3 with ⟨vp, _, heq⟩
        split at heq
        · exact absurd heq (by simp)
        · split at heq
          · exact absurd heq (by simp)
          · rw [Option.some.injEq] at heq
            exact ⟨vp.2, (congrArg Prod.snd heq).symm⟩
      · exact absurd h3 (List.not_mem_nil _)

/-- A list with a member is not empty (`isEmpty` is `false`). -/
theorem isEmpty_false_of_mem {a : α} {l : List α} (h : a ∈ l) :
    l.isEmpty = false := by
  cases l
  · exact absurd h (List.not_mem_nil _)
  · rfl

/-- C4: every custom (non-built-in) directive attached to a type definition
or to one of its fields contributes its formatted string to the directive
map built over the canonical serialization, and that formatted string
renders every argument through graphql-core's literal value printer —
list values as bracketed literals and object values as brace-delimited
literals, never a debug representation. -/
theorem directive_map_preserves_custom_annotations :
    ∀ (schema : List TypeDef) (t : TypeDef) (d : DirectiveNode),
      t ∈ schema → strStartsWith "__" t.name = false →
      isDirectiveRelatedType t.kind = true →
      d.name ≠ "deprecated" → d.name ≠ "specifiedBy" →
      ((d ∈ t.directives →
          ∃ strs, (DirectiveMapKey.typeName t.name, strs) ∈ build_directive_map schema ∧
            format_directive_from_ast d ∈ strs) ∧
       (∀ fname f, (fname, f) ∈ t.fields → typeKindHasFields t.kind = true →
          d ∈ f.directives →
          ∃ strs, (DirectiveMapKey.member t.name fname, strs) ∈ build_directive_map schema ∧
            format_directive_from_ast d ∈ strs) ∧
       format_directive_from_ast d =
         "@" ++ d.name ++
           (if d.arguments.isEmpty then ""
            else "(" ++ String.intercalate ", "
              (d.arguments.map (fun arg => arg.1 ++ ": " ++ print_ast arg.2)) ++ ")") ∧
       (∀ vs, print_ast (ValueNode.listValue vs) =
          "[" ++ String.intercalate ", " (vs.map print_ast) ++ "]") ∧
       (∀ fs, print_ast (ValueNode.objectValue fs) =
          "\x7b" ++ String.intercalate ", "
            (fs.map (fun f => f.1 ++ ": " ++ print_ast f.2)) ++ "\x7d")) := by
  intro schema t d ht hstart hkind h1 h2
  refine ⟨?_, ?_, ?_, ?_, ?_⟩
  · intro hd
    refine ⟨get_directive_strings t.directives,
      mem_build_directive_map ht ?_, mem_get_directive_strings hd h1 h2⟩
    have hdne : t.directives.isEmpty = false := isEmpty_false_of_mem hd
    have hsne : (get_directive_strings t.directives).isEmpty = false :=
      isEmpty_false_of_mem (mem_get_directive_strings hd h1 h2)
    unfold typeDirectiveEntries
    rw [hstart, hkind]
    simp only [Bool.not_true, Bool.or_false, hdne, hsne]
    exact List.mem_append_left _ (List.mem_append_left _ (List.mem_singleton_self _))
  · intro fname f hf hkfields hd
    refine ⟨get_directive_strings f.directives,
      mem_build_directive_map ht ?_, mem_get_directive_strings hd h1 h2⟩
    have hdne : f.directives.isEmpty = false := isEmpty_false_of_mem hd
    have hsne : (get_directive_strings f.directives).isEmpty = false :=
      isEmpty_false_of_mem (mem_get_directive_strings hd h1 h2)
    unfold typeDirectiveEntries
    rw [hstart, hkind, hkfields]
    simp only [Bool.not_true, Bool.or_false, if_false]
    refine List.mem_append_left _ (List.mem_append_right _ ?_)
    refine List.mem_filterMap.2 ⟨(fname, f), hf, ?_⟩
    rw [hdne, hsne]
    rfl
  · simp only [format_directive_from_ast, h1, h2, or_self, if_false]
  · intro vs
    simp [print_ast, List.attach_map_coe]
  · intro fs
    simp only [print_ast]
    exact congrArg (fun l => "\x7b" ++ String.intercalate ", " l ++ "\x7d")
      (List.attach_map_val fs (fun p => p.1 ++ ": " ++ print_ast p.2))

/-- Concrete directive with a list-valued and an object-valued argument. -/
def exampleListObjDirective : DirectiveNode :=
  ⟨"metadata",
   [("tags", ValueNode.listValue [ValueNode.stringValue "a", ValueNode.intValue "2"]),
    ("info", ValueNode.objectValue [("k", ValueNode.enumValue "V")])]⟩

/-- Concrete object type carrying `exampleListObjDirective` and a field with
`@noDuplicates`. -/
def exampleTypeDef : TypeDef :=
  ⟨"Vehicle", "", TypeKind.object, [exampleListObjDirective],
   [("tags", ⟨GraphQLTypeRef.list (GraphQLTypeRef.named "String"),
              [⟨"noDuplicates", []⟩]⟩)], [], []⟩

/-- C4 witness: in the one-type schema `[exampleTypeDef]`, the formatted
custom directive string is recorded in the directive map for `Vehicle`. -/
theorem directive_map_preserves_custom_annotations_witness :
    ∃ strs, (DirectiveMapKey.typeName "Vehicle", strs) ∈
        build_directive_map [exampleTypeDef] ∧
      format_directive_from_ast exampleListObjDirective ∈ strs :=
  ((directive_map_preserves_custom_annotations [exampleTypeDef] exampleTypeDef
      exampleListObjDirective (List.mem_singleton_self _) (by decide) (by decide)
      (by decide) (by decide)).1
    (List.mem_singleton_self _))

/-- C10: the directive formatter maps every `deprecated` or `specifiedBy`
directive node to the empty string, whatever its arguments, and the built
directive map never stores an empty string, so these built-in directives
are never re-attached to the canonical serialization. -/
theorem builtin_directives_never_reattached :
    (∀ d : DirectiveNode, d.name = "deprecated" ∨ d.name = "specifiedBy" →
        format_directive_from_ast d = "") ∧
    (∀ (schema : List TypeDef) (key : DirectiveMapKey) (strs : List String),
        (key, strs) ∈ build_directive_map schema → "" ∉ strs) := by
  constructor
  · intro d h
    simp only [format_directive_from_ast]
    rw [if_pos h]
  · intro schema key strs hmem hin
    rw [build_directive_map] at hmem
    rcases List.mem_flatten.1 hmem with ⟨l, hl, hentry⟩
    rcases List.mem_map.1 hl with ⟨t, _, rfl⟩
    rcases strs_of_mem_typeDirectiveEntries hentry with ⟨ds, rfl⟩
    exact empty_not_mem_get_directive_strings ds hin

/-- C10 witness: a concrete `deprecated` node with an argument formats to
the empty string, and a concrete directive-map entry is free of empty
strings. -/
theorem builtin_directives_never_reattached_witness :
    format_directive_from_ast ⟨"deprecated", [("reason", ValueNode.stringValue "old")]⟩ = "" ∧
    "" ∉ get_directive_strings [exampleListObjDirective] :=
  ⟨builtin_directives_never_reattached.1 _ (Or.inl rfl),
   fun hin => builtin_directives_never_reattached.2 [exampleTypeDef]
     (DirectiveMapKey.typeName "Vehicle") (get_directive_strings [exampleListObjDirective])
     (by
       refine mem_build_directive_map (List.mem_singleton_self _) ?_
       unfold typeDirectiveEntries
       refine List.mem_append_left _ (List.mem_append_left _ ?_)
       have hne : (get_directive_strings [exampleListObjDirective]).isEmpty = false :=
         isEmpty_false_of_mem (mem_get_directive_strings (List.mem_singleton_self _)
           (by decide) (by decide))
       show (DirectiveMapKey.typeName "Vehicle", get_directive_strings [exampleListObjDirective]) ∈
         (if ([exampleListObjDirective] : List DirectiveNode).isEmpty = true then []
          else if (get_directive_strings [exampleListObjDirective]).isEmpty = true then []
          else [(DirectiveMapKey.typeName "Vehicle", get_directive_strings [exampleListObjDirective])])
       rw [hne]
       exact List.mem_singleton_self _)
     hin⟩

/-! ## RDF schema extraction (`rdf_materializer.py`) -/

/-- Modelled from the spec: `is_introspection_or_root_type` lives in
`s2dm/exporters/utils/graphql_type.py`, which is not among the provided
sources; per the spec it excludes introspection/meta types and the root
operation types (query/mutation/subscription). -/
def is_introspection_or_root_type (name : String) : Bool :=
  strStartsWith "__" name || name = "Query" || name = "Mutation" ||
    name = "Subscription"

/-- `graphql.get_named_type`: the innermost named type of a wrapped type. -/
def get_named_type : GraphQLTypeRef → String
  | .named n => n
  | .list t => get_named_type t
  | .nonNull t => get_named_type t

/-- `RdfFieldInfo` dataclass from `rdf_materializer.py`. -/
structure RdfFieldInfo where
  field_fqn : String
  output_type_name : String
  type_wrapper_pattern : String
deriving DecidableEq

/-- `RdfFieldContainerType` dataclass from `rdf_materializer.py`. -/
structure RdfFieldContainerType where
  name : String
  description : String
  fields : List RdfFieldInfo
deriving DecidableEq

/-- `RdfEnumType` dataclass from `rdf_materializer.py`. -/
structure RdfEnumType where
  name : String
  description : String
  values : List String
deriving DecidableEq

/-- `RdfUnionType` dataclass from `rdf_materializer.py`. -/
structure RdfUnionType where
  name : String
  description : String
  member_type_names : List String
deriving DecidableEq

/-- `RdfSchemaExtract` dataclass from `rdf_materializer.py`. -/
structure RdfSchemaExtract where
  object_types : List RdfFieldContainerType
  interface_types : List RdfFieldContainerType
  input_object_types : List RdfFieldContainerType
  union_types : List RdfUnionType
  enum_types : List RdfEnumType
deriving DecidableEq

/-- `_extract_fields_from_container` from `rdf_materializer.py`: one
`RdfFieldInfo` per field, with fully qualified name, innermost output type
name, and the wrapper pattern of the field's base shape. -/
def extract_fields_from_container (fields : List (String × GraphQLField))
    (type_name : String) : List RdfFieldInfo :=
  fields.map (fun fp =>
    ⟨type_name ++ "." ++ fp.1, get_named_type fp.2.type,
     field_case_to_type_wrapper_pattern (get_field_case fp.2)⟩)

/-- Build the `RdfFieldContainerType` for one object/interface/input type
(the loop body of `extract_schema_for_rdf` for container types). -/
def mkRdfContainer (t : TypeDef) : RdfFieldContainerType :=
  ⟨t.name, t.description, extract_fields_from_container t.fields t.name⟩

/-- `extract_schema_for_rdf` from `rdf_materializer.py`: walk the named
types in order, skip introspection/root types, and dispatch by kind into
the five category lists.  Scalar types match no branch of the Python
`if`/`elif` chain and contribute nothing. -/
def extract_schema_for_rdf (named_types : List TypeDef) : RdfSchemaExtract :=
  ⟨named_types.filterMap (fun nt =>
      if is_introspection_or_root_type nt.name then none
      else if nt.kind = .object then some (mkRdfContainer nt) else none),
   named_types.filterMap (fun nt =>
      if is_introspection_or_root_type nt.name then none
      else if nt.kind = .interface then some (mkRdfContainer nt) else none),
   named_types.filterMap (fun nt =>
      if is_introspection_or_root_type nt.name then none
      else if nt.kind = .inputObject then some (mkRdfContainer nt) else none),
   named_types.filterMap (fun nt =>
      if is_introspection_or_root_type nt.name then none
      else if nt.kind = .union then
        some ⟨nt.name, nt.description, nt.possibleTypes⟩ else none),
   named_types.filterMap (fun nt =>
      if is_introspection_or_root_type nt.name then none
      else if nt.kind = .enum then
        some ⟨nt.name, nt.description, nt.values.map (fun v => v.1)⟩ else none)⟩

/-- All type names appearing in an `RdfSchemaExtract` (the concepts the
extract records at type level). -/
def rdfExtractTypeNames (e : RdfSchemaExtract) : List String :=
  e.object_types.map (fun c => c.name) ++
  e.interface_types.map (fun c => c.name) ++
  e.input_object_types.map (fun c => c.name) ++
  e.union_types.map (fun c => c.name) ++
  e.enum_types.map (fun c => c.name)

/-- All fully qualified field names appearing in an `RdfSchemaExtract`. -/
def rdfExtractFieldFqns (e : RdfSchemaExtract) : List String :=
  (((e.object_types ++ e.interface_types ++ e.input_object_types).map
    (fun c => c.fields.map (fun f => f.field_fqn))).flatten)

/-- The type kinds that `extract_schema_for_rdf` dispatches into the
extract (scalars match no branch). -/
def isRdfExtractedKind : TypeKind → Bool
  | .object => true
  | .interface => true
  | .inputObject => true
  | .union => true
  | .enum => true
  | .scalar => false
  | .other => false

/-- Inclusion half of the filterMap pattern used by
`extract_schema_for_rdf`. -/
theorem mem_filterMap_extract {named_types : List TypeDef} {nt : TypeDef}
    {k : TypeKind} {β : Type} (g : TypeDef → β)
    (hnt : nt ∈ named_types) (hexcl : is_introspection_or_root_type nt.name = false)
    (hkind : nt.kind = k) :
    g nt ∈ named_types.filterMap (fun u =>
      if is_introspection_or_root_type u.name then none
      else if u.kind = k then some (g u) else none) := by
  refine List.mem_filterMap.2 ⟨nt, hnt, ?_⟩
  rw [hexcl, if_neg (fun h => Bool.noConfusion h), if_pos hkind]

/-- Inversion half of the filterMap pattern used by
`extract_schema_for_rdf`. -/
theorem of_mem_filterMap_extract {named_types : List TypeDef}
    {k : TypeKind} {β : Type} {g : TypeDef → β} {c : β}
    (h : c ∈ named_types.filterMap (fun u =>
      if is_introspection_or_root_type u.name then none
      else if u.kind = k then some (g u) else none)) :
    ∃ nt, nt ∈ named_types ∧ is_introspection_or_root_type nt.name = false ∧
      nt.kind = k ∧ c = g nt := by
  rcases List.mem_filterMap.1 h with ⟨nt, hnt, heq⟩
  cases hex : is_introspection_or_root_type nt.name
  · rw [hex, if_neg (fun h => Bool.noConfusion h)] at heq
    by_cases hk : nt.kind = k
    · rw [if_pos hk] at heq
      exact ⟨nt, hnt, hex, hk, (Option.some.inj heq).symm⟩
    · rw [if_neg hk] at heq
      exact Option.noConfusion heq
  · rw [hex, if_pos rfl] at heq
    exact Option.noConfusion heq

/-- A schema with a root type, an object type and a custom scalar type. -/
def scalarCounterexampleSchema : List TypeDef :=
  [⟨"Query", "", TypeKind.object, [],
    [("vehicle", ⟨GraphQLTypeRef.named "Vehicle", []⟩)], [], []⟩,
   ⟨"Vehicle", "", TypeKind.object, [],
    [("at", ⟨GraphQLTypeRef.named "DateTime", []⟩)], [], []⟩,
   ⟨"DateTime", "", TypeKind.scalar, [], [], [], []⟩]

/-- C7 counterexample: `DateTime` is a named type of the schema, is not an
introspection or root type, yet appears nowhere among the types produced by
`extract_schema_for_rdf` — scalar types are dropped by the extraction, so
not every non-excluded named type appears among the produced concepts. -/
theorem scalar_type_missing_from_rdf_extract :
    "DateTime" ∈ scalarCounterexampleSchema.map (fun t => t.name) ∧
    is_introspection_or_root_type "DateTime" = false ∧
    "DateTime" ∉
      rdfExtractTypeNames (extract_schema_for_rdf scalarCounterexampleSchema) := by
  refine ⟨by decide, by decide, by decide⟩

/-- C7 amended: extraction excludes introspection/meta and root operation
types — no extracted type name is excluded, and every extracted field FQN
stems from a non-excluded type — while every other object, interface,
input-object, union and enum type appears with its fields and enum values
(scalar types are not extracted). -/
theorem rdf_extract_excludes_roots_includes_rest :
    (∀ (named_types : List TypeDef) (t : TypeDef), t ∈ named_types →
      is_introspection_or_root_type t.name = false →
      isRdfExtractedKind t.kind = true →
      t.name ∈ rdfExtractTypeNames (extract_schema_for_rdf named_types) ∧
      (∀ fname fdef, (fname, fdef) ∈ t.fields → typeKindHasFields t.kind = true →
        (t.name ++ "." ++ fname) ∈
          rdfExtractFieldFqns (extract_schema_for_rdf named_types)) ∧
      (t.kind = .enum →
        ∃ e, e ∈ (extract_schema_for_rdf named_types).enum_types ∧
          e.name = t.name ∧ e.values = t.values.map (fun v => v.1))) ∧
    (∀ (named_types : List TypeDef) (n : String),
      n ∈ rdfExtractTypeNames (extract_schema_for_rdf named_types) →
      is_introspection_or_root_type n = false) ∧
    (∀ (named_types : List TypeDef) (fq : String),
      fq ∈ rdfExtractFieldFqns (extract_schema_for_rdf named_types) →
      ∃ u, u ∈ named_types ∧ is_introspection_or_root_type u.name = false ∧
        ∃ fname fdef, (fname, fdef) ∈ u.fields ∧ fq = u.name ++ "." ++ fname) := by
  refine ⟨?_, ?_, ?_⟩
  · intro named_types t hnt hexcl hkind
    refine ⟨?_, ?_, ?_⟩
    · simp only [rdfExtractTypeNames, extract_schema_for_rdf]
      cases hk : t.kind
      case object =>
        exact List.mem_append_left _ (List.mem_append_left _
          (List.mem_append_left _ (List.mem_append_left _
            (List.mem_map.2 ⟨mkRdfContainer t,
              mem_filterMap_extract mkRdfContainer hnt hexcl hk, rfl⟩))))
      case interface =>
        exact List.mem_append_left _ (List.mem_append_left _
          (List.mem_append_left _ (List.mem_append_right _
            (List.mem_map.2 ⟨mkRdfContainer t,
              mem_filterMap_extract mkRdfContainer hnt hexcl hk, rfl⟩))))
      case inputObject =>
        exact List.mem_append_left _ (List.mem_append_left _
          (List.mem_append_right _
            (List.mem_map.2 ⟨mkRdfContainer t,
              mem_filterMap_extract mkRdfContainer hnt hexcl hk, rfl⟩)))
      case union =>
        exact List.mem_append_left _ (List.mem_append_right _
          (List.mem_map.2 ⟨⟨t.name, t.description, t.possibleTypes⟩,
            mem_filterMap_extract
              (fun u => (⟨u.name, u.description, u.possibleTypes⟩ : RdfUnionType))
              hnt hexcl hk, rfl⟩))
      case enum =>
        exact List.mem_append_right _
          (List.mem_map.2 ⟨⟨t.name, t.description, t.values.map (fun v => v.1)⟩,
            mem_filterMap_extract
              (fun u => (⟨u.name, u.description,
                u.values.map (fun v => v.1)⟩ : RdfEnumType))
              hnt hexcl hk, rfl⟩)
      case scalar => rw [hk] at hkind; exact Bool.noConfusion hkind
      case other => rw [hk] at hkind; exact Bool.noConfusion hkind
    · intro fname fdef hf hkfields
      simp only [rdfExtractFieldFqns, extract_schema_for_rdf]
      refine List.mem_flatten.2
        ⟨(mkRdfContainer t).fields.map (fun f => f.field_fqn),
         List.mem_map.2 ⟨mkRdfContainer t, ?_, rfl⟩, ?_⟩
      · cases hk : t.kind
        case object =>
          exact List.mem_append_left _ (List.mem_append_left _
            (mem_filterMap_extract mkRdfContainer hnt hexcl hk))
        case interface =>
          exact List.mem_append_left _ (List.mem_append_right _
            (mem_filterMap_extract mkRdfContainer hnt hexcl hk))
        case inputObject =>
          exact List.mem_append_right _
            (mem_filterMap_extract mkRdfContainer hnt hexcl hk)
        case union => rw [hk] at hkfields; exact Bool.noConfusion hkfields
        case enum => rw [hk] at hkfields; exact Bool.noConfusion hkfields
        case scalar => rw [hk] at hkfields; exact Bool.noConfusion hkfields
        case other => rw [hk] at hkfields; exact Bool.noConfusion hkfields
      · exact List.mem_map.2
          ⟨⟨t.name ++ "." ++ fname, get_named_type fdef.type,
            field_case_to_type_wrapper_pattern (get_field_case fdef)⟩,
           List.mem_map.2 ⟨(fname, fdef), hf, rfl⟩, rfl⟩
    · intro hk
      exact ⟨⟨t.name, t.description, t.values.map (fun v => v.1)⟩,
        mem_filterMap_extract
          (fun u => (⟨u.name, u.description,
            u.values.map (fun v => v.1)⟩ : RdfEnumType)) hnt hexcl hk,
        rfl, rfl⟩
  · intro named_types n hn
    simp only [rdfExtractTypeNames, extract_schema_for_rdf] at hn
    rcases List.mem_append.1 hn with hn | hn
    rotate_left
    · rcases List.mem_map.1 hn with ⟨c, hc, rfl⟩
      rcases of_mem_filterMap_extract hc with ⟨nt, _, hex, _, rfl⟩
      exact hex
    rcases List.mem_append.1 hn with hn | hn
    rotate_left
    · rcases List.mem_map.1 hn with ⟨c, hc, rfl⟩
      rcases of_mem_filterMap_extract hc with ⟨nt, _, hex, _, rfl⟩
      exact hex
    rcases List.mem_append.1 hn with hn | hn
    rotate_left
    · rcases List.mem_map.1 hn with ⟨c, hc, rfl⟩
      rcases of_mem_filterMap_extract hc with ⟨nt, _, hex, _, rfl⟩
      exact hex
    rcases List.mem_append.1 hn with hn | hn
    · rcases List.mem_map.1 hn with ⟨c, hc, rfl⟩
      rcases of_mem_filterMap_extract hc with ⟨nt, _, hex, _, rfl⟩
      exact hex
    · rcases List.mem_map.1 hn with ⟨c, hc, rfl⟩
      rcases of_mem_filterMap_extract hc with ⟨nt, _, hex, _, rfl⟩
      exact hex
  · intro named_types fq hfq
    simp only [rdfExtractFieldFqns, extract_schema_for_rdf] at hfq
    rcases List.mem_flatten.1 hfq with ⟨l, hl, hfl⟩
    rcases List.mem_map.1 hl with ⟨c, hc, rfl⟩
    have hcases : ∃ nt, nt ∈ named_types ∧
        is_introspection_or_root_type nt.name = false ∧ c = mkRdfContainer nt := by
      rcases List.mem_append.1 hc with hc | hc
      · rcases List.mem_append.1 hc with hc | hc
        · rcases of_mem_filterMap_extract hc with ⟨nt, hm, hex, _, rfl⟩
          exact ⟨nt, hm, hex, rfl⟩
        · rcases of_mem_filterMap_extract hc with ⟨nt, hm, hex, _, rfl⟩
          exact ⟨nt, hm, hex, rfl⟩
      · rcases of_mem_filterMap_extract hc with ⟨nt, hm, hex, _, rfl⟩
        exact ⟨nt, hm, hex, rfl⟩
    rcases hcases with ⟨nt, hm, hex, rfl⟩
    rcases List.mem_map.1 hfl with ⟨fi, hfi, rfl⟩
    rcases List.mem_map.1 hfi with ⟨fp, hfp, rfl⟩
    exact ⟨nt, hm, hex, fp.1, fp.2, hfp, rfl⟩

/-- C7 witness: in the concrete schema, `Vehicle` and `Vehicle.at` appear in
the extract while the root `Query` is excluded by the predicate. -/
theorem rdf_extract_excludes_roots_includes_rest_witness :
    "Vehicle" ∈ rdfExtractTypeNames
      (extract_schema_for_rdf scalarCounterexampleSchema) ∧
    ("Vehicle" ++ "." ++ "at") ∈ rdfExtractFieldFqns
      (extract_schema_for_rdf scalarCounterexampleSchema) :=
  ⟨((rdf_extract_excludes_roots_includes_rest.1 scalarCounterexampleSchema
      ⟨"Vehicle", "", TypeKind.object, [],
       [("at", ⟨GraphQLTypeRef.named "DateTime", []⟩)], [], []⟩
      (List.mem_cons_of_mem _ (List.mem_cons_self _ _))
      (by decide) (by decide)).1),
   ((rdf_extract_excludes_roots_includes_rest.1 scalarCounterexampleSchema
      ⟨"Vehicle", "", TypeKind.object, [],
       [("at", ⟨GraphQLTypeRef.named "DateTime", []⟩)], [], []⟩
      (List.mem_cons_of_mem _ (List.mem_cons_self _ _))
      (by decide) (by decide)).2.1 "at"
      ⟨GraphQLTypeRef.named "DateTime", []⟩
      (List.mem_singleton_self _) (by decide))⟩

/-! ## Deterministic n-triples serialization (`rdf_materializer.py`)

Python strings are modelled as `List Char` here because the code
manipulates them character by character. -/

/-- Python `str.strip()`: remove leading and trailing whitespace. -/
def pyStrip (s : List Char) : List Char :=
  ((s.dropWhile Char.isWhitespace).reverse.dropWhile Char.isWhitespace).reverse

/-- Python `str.split("\n")`: cut at every newline, keeping empty pieces. -/
def splitOnNewlines : List Char → List (List Char)
  | [] => [[]]
  | c :: cs =>
    match splitOnNewlines cs with
    | [] => [[]]
    | l :: ls => if c = '\n' then [] :: l :: ls else (c :: l) :: ls

/-- Python `"\n".join(lines)`. -/
def joinWithNewlines (lines : List (List Char)) : List Char :=
  (lines.intersperse ['\n']).flatten

/-- The list comprehension of `_sort_ntriples_lines`: the lines of the
stripped serializer output whose own stripped form is non-empty. -/
def ntriplesLines (nt_str : List Char) : List (List Char) :=
  (splitOnNewlines (pyStrip nt_str)).filter (fun line => !(pyStrip line).isEmpty)

/-- `_sort_ntriples_lines` from `rdf_materializer.py`: sort the non-blank
lines lexicographically, join with newlines and append one trailing
newline; empty output for no lines.  Python `sorted` over a linear order
is modelled by insertion sort (any sorting algorithm agrees on a linear
order). -/
def sort_ntriples_lines (nt_str : List Char) : List Char :=
  if (ntriplesLines nt_str).isEmpty then []
  else joinWithNewlines (List.insertionSort (· ≤ ·) (ntriplesLines nt_str)) ++ ['\n']

/-- `serialize_sorted_ntriples` from `rdf_materializer.py`, with the rdflib
n-triples serializer (an external collaborator whose line order is
unspecified) abstracted as the raw serializer output `nt`. -/
def serialize_sorted_ntriples (nt : List Char) : List Char :=
  sort_ntriples_lines nt

/-- A non-nil list's `isEmpty` is `false`. -/
theorem isEmpty_false_of_ne_nil {l : List α} (h : l ≠ []) : l.isEmpty = false := by
  cases l
  · exact absurd rfl h
  · rfl

/-- C8: serialization is deterministic — any two raw serializer outputs
carrying the same multiset of non-blank triple lines produce the identical
sorted string, and for any output the result is either empty (no lines) or
exactly the sorted permutation of its lines joined by newlines with a
single trailing newline. -/
theorem serialize_sorted_ntriples_deterministic :
    (∀ nt1 nt2 : List Char, List.Perm (ntriplesLines nt1) (ntriplesLines nt2) →
       serialize_sorted_ntriples nt1 = serialize_sorted_ntriples nt2) ∧
    (∀ nt : List Char,
       (ntriplesLines nt = [] → serialize_sorted_ntriples nt = []) ∧
       (ntriplesLines nt ≠ [] →
         ∃ ls, List.Perm ls (ntriplesLines nt) ∧ ls.Sorted (· ≤ ·) ∧
           serialize_sorted_ntriples nt = joinWithNewlines ls ++ ['\n'])) := by
  constructor
  · intro nt1 nt2 hperm
    have hs : List.insertionSort (· ≤ ·) (ntriplesLines nt1) =
        List.insertionSort (· ≤ ·) (ntriplesLines nt2) := by
      exact List.eq_of_perm_of_sorted
        ((List.perm_insertionSort _ _).trans
          (hperm.trans (List.perm_insertionSort _ _).symm))
        (List.sorted_insertionSort _ _) (List.sorted_insertionSort _ _)
    unfold serialize_sorted_ntriples sort_ntriples_lines
    by_cases h1 : ntriplesLines nt1 = []
    · have h2 : ntriplesLines nt2 = [] := by
        rw [h1] at hperm
        exact hperm.symm.eq_nil
      rw [h1, h2]
    · have h2 : ntriplesLines nt2 ≠ [] := by
        intro h
        rw [h] at hperm
        exact h1 hperm.eq_nil
      rw [isEmpty_false_of_ne_nil h1, isEmpty_false_of_ne_nil h2, hs]
  · intro nt
    constructor
    · intro h
      unfold serialize_sorted_ntriples sort_ntriples_lines
      rw [h]
      rfl
    · intro h
      refine ⟨List.insertionSort (· ≤ ·) (ntriplesLines nt),
        List.perm_insertionSort _ _, List.sorted_insertionSort _ _, ?_⟩
      unfold serialize_sorted_ntriples sort_ntriples_lines
      rw [isEmpty_false_of_ne_nil h]
      rfl

/-- C8 witness: two raw outputs with the same lines in opposite order
serialize identically, and a concrete non-empty output is the sorted join
of its lines with one trailing newline. -/
theorem serialize_sorted_ntriples_deterministic_witness :
    serialize_sorted_ntriples ['b', '\n', 'a'] =
      serialize_sorted_ntriples ['a', '\n', 'b'] ∧
    serialize_sorted_ntriples [] = [] :=
  ⟨serialize_sorted_ntriples_deterministic.1 ['b', '\n', 'a'] ['a', '\n', 'b']
      (by decide),
   (serialize_sorted_ntriples_deterministic.2 []).1 (by decide)⟩

/-! ## Version-tag suffixing (`cli.py`), over pathlib file names

`apply_version_tag_suffix` manipulates the path's file name through
pathlib's `stem`, `suffix` and `with_name`; the file name is modelled as a
`List Char` and stem/suffix follow cpython's rule: the name splits at its
last dot when that dot is neither the first nor the last character. -/

/-- Split a file name at its LAST dot: `some (before, fromDot)` when a dot
exists, `none` otherwise. -/
def splitAtLastDot : List Char → Option (List Char × List Char)
  | [] => none
  | c :: cs =>
    match splitAtLastDot cs with
    | some (b, x) => some (c :: b, x)
    | none => if c = '.' then some ([], c :: cs) else none

/-- cpython `PurePath.stem`: the name up to the last dot, when that dot is
neither first nor last; otherwise the whole name. -/
def path_stem (name : List Char) : List Char :=
  match splitAtLastDot name with
  | some (b, x) => if b ≠ [] ∧ 2 ≤ x.length then b else name
  | none => name

/-- cpython `PurePath.suffix`: the name from the last dot on, when that dot
is neither first nor last; otherwise empty. -/
def path_suffix (name : List Char) : List Char :=
  match splitAtLastDot name with
  | some (b, x) => if b ≠ [] ∧ 2 ≤ x.length then x else []
  | none => []

/-- Python `str.endswith`. -/
def pyEndsWith (s p : List Char) : Bool :=
  p.isSuffixOf s

/-- `apply_version_tag_suffix` from `cli.py`, acting on the path's file
name: rebuild the name as `stem_tag<suffix>` unless the stem already ends
with `_<tag>`. -/
def apply_version_tag_suffix (output version_tag : List Char) : List Char :=
  if !pyEndsWith (path_stem output) ('_' :: version_tag) then
    path_stem output ++ '_' :: version_tag ++ path_suffix output
  else output

/-- C9 counterexample: for the extensionless name `out` and the dotted tag
`v1.0`, one application yields `out_v1.0` whose stem is `out_v1` with
suffix `.0`, so a second application yields `out_v1_v1.0.0`: applying the
operation twice differs from applying it once. -/
theorem apply_version_tag_suffix_not_idempotent :
    apply_version_tag_suffix
        (apply_version_tag_suffix ['o', 'u', 't'] ['v', '1', '.', '0'])
        ['v', '1', '.', '0'] ≠
      apply_version_tag_suffix ['o', 'u', 't'] ['v', '1', '.', '0'] := by
  decide

/-- A dot-free list has no last-dot split. -/
theorem splitAtLastDot_eq_none {l : List Char} (h : '.' ∉ l) :
    splitAtLastDot l = none := by
  induction l with
  | nil => rfl
  | cons c cs ih =>
    have hcs : '.' ∉ cs := fun hx => h (List.mem_cons_of_mem _ hx)
    have hc : c ≠ '.' := fun hx => h (hx ▸ List.mem_cons_self _ _)
    unfold splitAtLastDot
    rw [ih hcs]
    simp only [if_neg hc]

/-- The last-dot split of `a ++ '.' :: rest` with a dot-free `rest` is at
that dot. -/
theorem splitAtLastDot_append {a rest : List Char} (h : '.' ∉ rest) :
    splitAtLastDot (a ++ '.' :: rest) = some (a, '.' :: rest) := by
  induction a with
  | nil =>
    show splitAtLastDot ('.' :: rest) = some ([], '.' :: rest)
    unfold splitAtLastDot
    rw [splitAtLastDot_eq_none h]
    rw [if_pos rfl]
  | cons c cs ih =>
    show splitAtLastDot (c :: (cs ++ '.' :: rest)) = _
    unfold splitAtLastDot
    rw [ih]

/-- A name without a last-dot split is dot-free. -/
theorem not_dot_mem_of_splitAtLastDot_none :
    ∀ {l : List Char}, splitAtLastDot l = none → '.' ∉ l := by
  intro l
  induction l with
  | nil => intro _ h; exact List.not_mem_nil _ h
  | cons c cs ih =>
    intro h hmem
    unfold splitAtLastDot at h
    cases hcs : splitAtLastDot cs with
    | some p =>
      rcases p with ⟨b', x'⟩
      rw [hcs] at h
      exact Option.noConfusion h
    | none =>
      rw [hcs] at h
      by_cases hc : c = '.'
      · rw [if_pos hc] at h
        exact Option.noConfusion h
      · rcases List.mem_cons.1 hmem with h1 | h1
        · exact hc h1.symm
        · exact ih hcs h1

/-- Inversion of the last-dot split: the name decomposes at a dot whose
tail is dot-free. -/
theorem splitAtLastDot_inv :
    ∀ {l b x : List Char}, splitAtLastDot l = some (b, x) →
      l = b ++ x ∧ ∃ y, x = '.' :: y ∧ '.' ∉ y := by
  intro l
  induction l with
  | nil => intro b x h; exact Option.noConfusion h
  | cons c cs ih =>
    intro b x h
    unfold splitAtLastDot at h
    cases hcs : splitAtLastDot cs with
    | some p =>
      rcases p with ⟨b', x'⟩
      rw [hcs] at h
      have heq := Option.some.inj h
      have hb : b = c :: b' := (congrArg Prod.fst heq).symm
      have hx : x = x' := (congrArg Prod.snd heq).symm
      subst hb hx
      rcases ih hcs with ⟨hdec, y, hy, hny⟩
      exact ⟨by rw [hdec]; rfl, y, hy, hny⟩
    | none =>
      rw [hcs] at h
      by_cases hc : c = '.'
      · rw [if_pos hc] at h
        have heq := Option.some.inj h
        have hb : b = [] := (congrArg Prod.fst heq).symm
        have hx : x = c :: cs := (congrArg Prod.snd heq).symm
        subst hb hx
        exact ⟨rfl, cs, by rw [hc], not_dot_mem_of_splitAtLastDot_none hcs⟩
      · rw [if_neg hc] at h
        exact Option.noConfusion h

/-- Stem and suffix of a name whose last-dot split is valid (dot neither
first nor last). -/
theorem path_parts_of_valid_split {name b y : List Char}
    (hsplit : splitAtLastDot name = some (b, '.' :: y)) (hb : b ≠ [])
    (hy : y ≠ []) :
    path_stem name = b ∧ path_suffix name = '.' :: y := by
  have hcond : b ≠ [] ∧ 2 ≤ ('.' :: y).length := by
    refine ⟨hb, ?_⟩
    cases y with
    | nil => exact absurd rfl hy
    | cons a t =>
      simp only [List.length_cons]
      omega
  constructor
  · unfold path_stem
    rw [hsplit]
    exact if_pos hcond
  · unfold path_suffix
    rw [hsplit]
    exact if_pos hcond

/-- Stem and suffix of a dot-free name. -/
theorem path_parts_of_no_dot {name : List Char} (h : '.' ∉ name) :
    path_stem name = name ∧ path_suffix name = [] := by
  constructor
  · unfold path_stem
    rw [splitAtLastDot_eq_none h]
  · unfold path_suffix
    rw [splitAtLastDot_eq_none h]

/-- The operation leaves the name unchanged when its stem already ends in
`_<tag>`. -/
theorem apply_version_tag_suffix_of_endsWith {name tag : List Char}
    (h : pyEndsWith (path_stem name) ('_' :: tag) = true) :
    apply_version_tag_suffix name tag = name := by
  unfold apply_version_tag_suffix
  rw [h]
  rfl

/-- The operation rebuilds the name when the stem does not end in
`_<tag>`. -/
theorem apply_version_tag_suffix_of_not_endsWith {name tag : List Char}
    (h : pyEndsWith (path_stem name) ('_' :: tag) = false) :
    apply_version_tag_suffix name tag =
      path_stem name ++ '_' :: tag ++ path_suffix name := by
  unfold apply_version_tag_suffix
  rw [h]
  rfl

/-- A list always ends with its own final segment. -/
theorem pyEndsWith_append (a b : List Char) : pyEndsWith (a ++ b) b = true := by
  unfold pyEndsWith
  exact List.isSuffixOf_iff_suffix.2 (List.suffix_append a b)

/-- C9 corrected: if the stem already ends with `_<tag>` the path is
returned unchanged; and applying the operation twice equals applying it
once provided the name has a non-empty suffix or both name and tag are
dot-free (the counterexample shows the unconditional claim fails). -/
theorem apply_version_tag_suffix_conditional_idempotent :
    (∀ name tag : List Char,
       pyEndsWith (path_stem name) ('_' :: tag) = true →
       apply_version_tag_suffix name tag = name) ∧
    (∀ name tag : List Char,
       path_suffix name ≠ [] ∨ ('.' ∉ name ∧ '.' ∉ tag) →
       apply_version_tag_suffix (apply_version_tag_suffix name tag) tag =
         apply_version_tag_suffix name tag) := by
  constructor
  · intro name tag h
    exact apply_version_tag_suffix_of_endsWith h
  · intro name tag hcase
    cases hend : pyEndsWith (path_stem name) ('_' :: tag) with
    | true =>
      rw [apply_version_tag_suffix_of_endsWith hend,
          apply_version_tag_suffix_of_endsWith hend]
    | false =>
      rw [apply_version_tag_suffix_of_not_endsWith hend]
      rcases hcase with hsuf | ⟨hname, htag⟩
      · have hsplitdata : ∃ b y, splitAtLastDot name = some (b, '.' :: y) ∧
            b ≠ [] ∧ y ≠ [] ∧ '.' ∉ y ∧
            path_stem name = b ∧ path_suffix name = '.' :: y := by
          unfold path_suffix at hsuf
          cases hsp : splitAtLastDot name with
          | none =>
            rw [hsp] at hsuf
            exact absurd rfl hsuf
          | some p =>
            rcases p with ⟨b, x⟩
            rw [hsp] at hsuf
            by_cases hcond : b ≠ [] ∧ 2 ≤ x.length
            · rcases splitAtLastDot_inv hsp with ⟨_, y, hy, hny⟩
              subst hy
              have hyne : y ≠ [] := by
                intro h0
                subst h0
                exact absurd hcond.2 (by decide)
              refine ⟨b, y, rfl, hcond.1, hyne, hny, ?_, ?_⟩
              · unfold path_stem
                rw [hsp]
                exact if_pos hcond
              · unfold path_suffix
                rw [hsp]
                exact if_pos hcond
            · exact absurd (if_neg hcond) hsuf
        rcases hsplitdata with ⟨b, y, _, hb, hy, hny, hstem, hsuff⟩
        rw [hstem, hsuff]
        have hsp' : splitAtLastDot ((b ++ '_' :: tag) ++ '.' :: y) =
            some (b ++ '_' :: tag, '.' :: y) := splitAtLastDot_append hny
        have hparts := path_parts_of_valid_split hsp' (by simp) hy
        apply apply_version_tag_suffix_of_endsWith
        rw [hparts.1]
        exact pyEndsWith_append b ('_' :: tag)
      · have hparts := path_parts_of_no_dot hname
        rw [hparts.1, hparts.2, List.append_nil]
        have hnd : '.' ∉ name ++ '_' :: tag := by
          intro hm
          rcases List.mem_append.1 hm with hm | hm
          · exact hname hm
          · rcases List.mem_cons.1 hm with hm | hm
            · exact absurd hm (by decide)
            · exact htag hm
        have hparts' := path_parts_of_no_dot hnd
        apply apply_version_tag_suffix_of_endsWith
        rw [hparts'.1]
        exact pyEndsWith_append name ('_' :: tag)

/-- C9 witness: for `ids.json` (non-empty suffix) and tag `v1.0`, applying
the operation twice equals applying it once. -/
theorem apply_version_tag_suffix_conditional_idempotent_witness :
    apply_version_tag_suffix
        (apply_version_tag_suffix ['i', 'd', 's', '.', 'j', 's', 'o', 'n']
          ['v', '1', '.', '0']) ['v', '1', '.', '0'] =
      apply_version_tag_suffix ['i', 'd', 's', '.', 'j', 's', 'o', 'n']
        ['v', '1', '.', '0'] :=
  apply_version_tag_suffix_conditional_idempotent.2
    ['i', 'd', 's', '.', 'j', 's', 'o', 'n'] ['v', '1', '.', '0']
    (Or.inl (by decide))

/-! ## The `registry id` command (`export_id` in `cli.py`) -/

/-- A structured diff record from the external diff collaborator
(`DiffChange`); the command only needs its existence before validation. -/
structure DiffChange where
  path : List Char
  criticality : List Char

/-- Observable outcome of one `registry id` invocation: the process exit
code, whether an error was reported, whether the variant exporter ran, and
which output files were written. -/
structure CliRunResult where
  exitCode : Nat
  errorLogged : Bool
  exporterRan : Bool
  filesWritten : List (List Char)
deriving DecidableEq

/-- `export_id` from `cli.py` after the schema is loaded (schema loading
writes nothing).  The body validates `--previous-ids`/`--diff-file` first:
with a previous-IDs path but no diff file it logs an error and exits with
code 1 before suffixing the output name, loading the diff, or running the
`IDExporter`.  Diff parsing (`parseDiffFile`) and the exporter's file
writes (`exporterWrites`, over the possibly version-tagged output path)
are abstracted as parameters. -/
def export_id
    (parseDiffFile : List Char → Except (List Char) (List DiffChange))
    (exporterWrites : Option (List Char) → List (List Char))
    (output previous_ids diff_file : Option (List Char))
    (version_tag : List Char) : CliRunResult :=
  if previous_ids.isSome && diff_file.isNone then
    ⟨1, true, false, []⟩
  else
    let tagged_output := output.map (fun o => apply_version_tag_suffix o version_tag)
    match diff_file with
    | some df =>
      match parseDiffFile df with
      | .error _ => ⟨1, true, false, []⟩
      | .ok _ => ⟨0, false, true, exporterWrites tagged_output⟩
    | none => ⟨0, false, true, exporterWrites tagged_output⟩

/-- C1: whenever a previous-IDs path is supplied without a diff file, the
`registry id` command reports an error and exits with code 1, the variant
exporter never runs, and no output file is written — for every diff
parser, exporter behaviour, output option and version tag. -/
theorem export_id_requires_diff_with_previous_ids
    (parseDiffFile : List Char → Except (List Char) (List DiffChange))
    (exporterWrites : Option (List Char) → List (List Char))
    (output : Option (List Char)) (previous_ids : Option (List Char))
    (version_tag : List Char) (p : List Char)
    (hprev : previous_ids = some p) :
    export_id parseDiffFile exporterWrites output previous_ids none version_tag =
      ⟨1, true, false, []⟩ := by
  subst hprev
  rfl

/-- C1 witness: a concrete invocation with `--previous-ids` and no diff
file fails with exit code 1, a reported error, no exporter run and no
files written, even though the exporter would have written a file. -/
theorem export_id_requires_diff_with_previous_ids_witness :
    export_id (fun _ => Except.ok []) (fun _ => [['o', 'u', 't']])
        (some ['o', 'u', 't']) (some ['p', 'r', 'e', 'v'])
        none ['v', '1'] =
      ⟨1, true, false, []⟩ :=
  export_id_requires_diff_with_previous_ids (fun _ => Except.ok [])
    (fun _ => [['o', 'u', 't']]) (some ['o', 'u', 't'])
    (some ['p', 'r', 'e', 'v']) ['v', '1'] ['p', 'r', 'e', 'v'] rfl
